import Mathlib

set_option linter.dupNamespace false

/-!
# Schema registry cache and wire codec

A shallow embedding of `registry.go` and `serializer.go`.

Conventions of the embedding:

* Go `int` is the 64-bit signed integer of the usual targets; it is modelled by `Int`, and the one
  place where a conversion truncates (`uint32(id)`) is written with an explicit `% 2 ^ 32`.
* A byte is a `Fin 256`, a byte slice is a `List Byte`.
* A Go map is a function into `Option`: `m k = none` is the `ok = false` case of `v, ok := m[k]`.
* The remote registry client and the codec engine are external collaborators.  They are
  parameters of every operation (`Client`, `Engine`), so that each call may answer arbitrarily.
* `log.Fatal` ends the process: an operation that reaches it ends with `Outcome.fatal` and
  carries the indices as they were at that point.  A nil dereference ends with `Outcome.panicked`.
* Every operation records the events it performs, in program order: mutex operations, index
  reads and writes, remote calls, codec compilations and log lines.
* An `Encoder` holds a back pointer to its registry in the source; the embedding passes the
  registry explicitly to the operations that follow the pointer (`Decode`).
* A `jsonEncoder` is a non-nil function value.
-/

namespace Registry

/-! ## Bytes and the big-endian helpers of `encoding/binary` -/

abbrev Byte := Fin 256

/-- Go conversion `byte(x)` of an unsigned value: the low eight bits. -/
def toByte (n : Nat) : Byte := ⟨n % 256, Nat.mod_lt _ (by decide)⟩

/-- The four bytes that `binary.BigEndian.PutUint32(b, v)` writes at `b[0..3]`. -/
def PutUint32 (v : Nat) : List Byte :=
  [toByte (v >>> 24), toByte (v >>> 16), toByte (v >>> 8), toByte v]

/-- The value `binary.BigEndian.Uint32(b)` reads from the four bytes `b[0..3]`. -/
def Uint32 (b0 b1 b2 b3 : Byte) : Nat :=
  b3.val ||| (b2.val <<< 8) ||| (b1.val <<< 16) ||| (b0.val <<< 24)

/-- Go conversion `uint32(id)` of an `int`: the low 32 bits. -/
def uint32 (id : Int) : Nat := (id % 2 ^ 32).toNat

/-! ## Errors -/

/-- The error values the two source files create, and those handed back by collaborators. -/
inductive Error
  /-- The error `avro.serializer.Deserialize: message length is zero`. -/
  | messageLengthZero
  /-- The error `Cannot decode prefix, slice length is less than 5`. -/
  | prefixTooShort
  /-- The error `schema id [%d] dose not have a json decoder`. -/
  | noJsonDecoder (schemaId : Int)
  /-- Any error returned by the remote client, the codec engine or `json.Marshal`. -/
  | external (msg : String)
  deriving DecidableEq, Repr

/-! ## Data model (`registry.go`, `serializer.go`) -/

/-- Source `type Subject struct`. -/
structure Subject where
  Schema : String
  Subject : String
  Version : Int
  Id : Int
  deriving DecidableEq, Repr

/-- Source `type Encoder struct`, without the back pointer to the registry. -/
structure Encoder where
  subject : Subject
  deriving DecidableEq, Repr

/-- Source `NewEncoder(reg, subject)`. -/
def NewEncoder (subject : Subject) : Encoder := { subject := subject }

/-- Source `Encoder.Schema` on a non-nil receiver. -/
def Encoder.Schema (s : Encoder) : String := s.subject.Schema

/-- Source `Encoder.encodePrefix`: five zero bytes, then `PutUint32(byt[1:], uint32(id))`. -/
def encodePrefix (id : Int) : List Byte := (0 : Byte) :: PutUint32 (uint32 id)

/-- Source `Encoder.decodePrefix`: the first pattern matches exactly when `len(byt) >= 5` and
reads `binary.BigEndian.Uint32(byt[1:5])`, converted back to `int`. -/
def decodePrefix (byt : List Byte) : Except Error Int :=
  match byt with
  | _ :: b1 :: b2 :: b3 :: b4 :: _ => .ok (Int.ofNat (Uint32 b1 b2 b3 b4))
  | _ => .error .prefixTooShort


/-! ## External collaborators -/

/-- Source `schemaregistry.Schema`, the record the remote client returns for a subject. -/
structure RemoteSchema where
  Schema : String
  Subject : String
  Version : Int
  ID : Int
  deriving DecidableEq, Repr

/-- The three operations of `schemaregistry.Client` that the registry uses.  A value of this type
is the behaviour of the remote service during one operation. -/
structure Client where
  GetSchemaBySubject : String → Int → Except Error RemoteSchema
  GetLatestSchema : String → Except Error RemoteSchema
  GetSchemaById : Int → Except Error String

/-- A compiled `goavro.Codec` over native values `N`.  `BinaryFromNative` and
`TextualFromNative` append what they produce to the buffer they are given; the part they
produce is `binaryPayload`, respectively `textualPayload`. -/
structure Codec (N : Type) where
  NativeFromTextual : List Byte → Except Error (N × List Byte)
  binaryPayload : N → Except Error (List Byte)
  NativeFromBinary : List Byte → Except Error (N × List Byte)
  textualPayload : N → Except Error (List Byte)

/-- Source `codec.BinaryFromNative(buf, datum)`. -/
def Codec.BinaryFromNative {N : Type} (c : Codec N) (buf : List Byte) (datum : N) :
    Except Error (List Byte) :=
  match c.binaryPayload datum with
  | .error err => .error err
  | .ok p => .ok (buf ++ p)

/-- Source `codec.TextualFromNative(buf, datum)`. -/
def Codec.TextualFromNative {N : Type} (c : Codec N) (buf : List Byte) (datum : N) :
    Except Error (List Byte) :=
  match c.textualPayload datum with
  | .error err => .error err
  | .ok p => .ok (buf ++ p)

/-- The codec engine: `goavro.NewCodec` together with `json.Marshal` on domain values `D`. -/
structure Engine (D N : Type) where
  NewCodec : String → Except Error (Codec N)
  Marshal : D → Except Error (List Byte)

/-! ## The registry -/

/-- Source `type jsonEncoder func(data []byte) (v interface{}, err error)`. -/
abbrev jsonEncoder (V : Type) := List Byte → Option V × Option Error

/-- Source `type SchemaRegistry struct`: the three indices.  The client is a parameter of the
operations and the mutex appears through the lock events. -/
structure SchemaRegistry (V : Type) where
  schemas : String → Option Encoder
  schemaIds : Int → Option Encoder
  jsonEncoders : Int → Option (jsonEncoder V)

/-- The maps of `NewSchemaRegistry`: all three empty. -/
def NewSchemaRegistry (V : Type) : SchemaRegistry V :=
  { schemas := fun _ => none, schemaIds := fun _ => none, jsonEncoders := fun _ => none }

/-- Map assignment `m[k] = v`. -/
def assign {K A : Type} [DecidableEq K] (m : K → Option A) (k : K) (v : A) : K → Option A :=
  fun k' => if k' = k then some v else m k'

inductive Index
  | schemas | schemaIds | jsonEncoders
  deriving DecidableEq, Repr

inductive RemoteCall
  | GetSchemaBySubject (subject : String) (version : Int)
  | GetLatestSchema (subject : String)
  | GetSchemaById (id : Int)
  deriving DecidableEq, Repr

inductive Level
  | warn | error | fatal
  deriving DecidableEq, Repr

/-- What an operation does, step by step. -/
inductive Event
  | lock
  | unlock
  | read (i : Index)
  | write (i : Index)
  | remote (c : RemoteCall)
  | newCodec (schema : String)
  | log (l : Level)
  deriving DecidableEq, Repr

/-- How a call ends: it returns, the process exits in `log.Fatal`, or the runtime panics. -/
inductive Outcome (α : Type)
  | ret (a : α)
  | fatal
  | panicked
  deriving DecidableEq, Repr

/-- The result of running an operation: what it gives back, the indices afterwards and the
events in program order. -/
structure Run (V α : Type) where
  out : α
  reg : SchemaRegistry V
  events : List Event

/-- Source `SchemaRegistry.GetBySubject`. -/
def GetBySubject (client : Client) (subject : String) (version : Int) : Except Error Subject :=
  match client.GetSchemaBySubject subject version with
  | .error err => .error err
  | .ok sub => .ok { Schema := sub.Schema, Id := sub.ID, Version := sub.Version,
                     Subject := sub.Subject }

/-- Source `SchemaRegistry.GetLatest`. -/
def GetLatest (client : Client) (subject : String) : Except Error Subject :=
  match client.GetLatestSchema subject with
  | .error err => .error err
  | .ok sub => .ok { Schema := sub.Schema, Id := sub.ID, Version := sub.Version,
                     Subject := sub.Subject }

/-- Source `SchemaRegistry.Register`. -/
def Register {V : Type} (r : SchemaRegistry V) (client : Client) (subject : String)
    (version : Int) (encoder : jsonEncoder V) : Run V (Outcome Unit) :=
  let seen : List Event :=
    Event.read .schemas :: (if (r.schemas subject).isSome then [Event.log .warn] else [])
  match GetBySubject client subject version with
  | .error _ =>
    { out := .fatal, reg := r,
      events := seen ++ [.remote (.GetSchemaBySubject subject version), .log .fatal] }
  | .ok sub =>
    let s := NewEncoder sub
    let r1 : SchemaRegistry V := { r with schemas := assign r.schemas subject s }
    let r2 : SchemaRegistry V := { r1 with schemaIds := assign r1.schemaIds sub.Id s }
    let r3 : SchemaRegistry V := { r2 with jsonEncoders := assign r2.jsonEncoders sub.Id encoder }
    { out := .ret (), reg := r3,
      events := seen ++ [.remote (.GetSchemaBySubject subject version), .write .schemas,
        .write .schemaIds, .write .jsonEncoders] }

/-- Source `SchemaRegistry.RegisterLatest`. -/
def RegisterLatest {V : Type} (r : SchemaRegistry V) (client : Client) (subject : String)
    (encoder : jsonEncoder V) : Run V (Outcome Unit) :=
  match r.schemas subject with
  | some _ => { out := .fatal, reg := r, events := [.read .schemas, .log .fatal] }
  | none =>
    match GetLatest client subject with
    | .error _ =>
      { out := .fatal, reg := r,
        events := [.read .schemas, .remote (.GetLatestSchema subject), .log .fatal] }
    | .ok sub =>
      let s := NewEncoder sub
      let r1 : SchemaRegistry V := { r with schemas := assign r.schemas subject s }
      let r2 : SchemaRegistry V := { r1 with schemaIds := assign r1.schemaIds sub.Id s }
      let r3 : SchemaRegistry V :=
        { r2 with jsonEncoders := assign r2.jsonEncoders sub.Id encoder }
      { out := .ret (), reg := r3,
        events := [.read .schemas, .remote (.GetLatestSchema subject), .write .schemas,
          .write .schemaIds, .write .jsonEncoders] }

/-- Source `SchemaRegistry.WithSchema`.  The deferred unlock runs on return, not when `log.Fatal`
exits. -/
def WithSchema {V : Type} (r : SchemaRegistry V) (subject : String) : Run V (Outcome Encoder) :=
  match r.schemas subject with
  | none => { out := .fatal, reg := r, events := [.lock, .read .schemas, .log .fatal] }
  | some s => { out := .ret s, reg := r, events := [.lock, .read .schemas, .unlock] }

/-- The call `sub.Schema()` through a `*Encoder` that may be nil (`none`): the method reads
`s.subject`, which dereferences the receiver. -/
def callSchema : Option Encoder → Outcome String
  | none => .panicked
  | some s => .ret s.Schema

/-- Source `SchemaRegistry.Get`.  The `!ok` branch only logs; control continues to `sub.Schema()`. -/
def Get {V : Type} (r : SchemaRegistry V) (schemaId : Int) :
    Run V (Outcome (Except Error String)) :=
  let sub := r.schemaIds schemaId
  let logged : List Event := if sub.isSome then [] else [.log .error]
  { out :=
      match callSchema sub with
      | .ret schema => .ret (.ok schema)
      | .fatal => .fatal
      | .panicked => .panicked,
    reg := r,
    events := [.lock, .read .schemaIds, .unlock] ++ logged }

/-- Source `SchemaRegistry.GetOrFetch`. -/
def GetOrFetch {V : Type} (r : SchemaRegistry V) (client : Client) (schemaId : Int) :
    Run V (Except Error String) :=
  match r.schemaIds schemaId with
  | none =>
    { out := client.GetSchemaById schemaId, reg := r,
      events := [.lock, .read .schemaIds, .unlock, .log .warn,
        .remote (.GetSchemaById schemaId)] }
  | some sub =>
    { out := .ok sub.Schema, reg := r, events := [.lock, .read .schemaIds, .unlock] }

/-! ## The wire codec (`serializer.go`) -/

/-- Source `Encoder.Encode`. -/
def Encode {D N : Type} (engine : Engine D N) (s : Encoder) (data : D) :
    Except Error (List Byte) :=
  match engine.NewCodec s.subject.Schema with
  | .error err => .error err
  | .ok codec =>
    match engine.Marshal data with
    | .error err => .error err
    | .ok byt =>
      match codec.NativeFromTextual byt with
      | .error err => .error err
      | .ok (native, _) =>
        let magic := encodePrefix s.subject.Id
        codec.BinaryFromNative magic native

/-- Source `Encoder.Decode`, on an encoder whose registry is `r`. -/
def Decode {D N V : Type} (r : SchemaRegistry V) (client : Client) (engine : Engine D N)
    (data : List Byte) : Run V (Option V × Option Error) :=
  if data.length < 5 then
    { out := (none, some .messageLengthZero), reg := r, events := [.log .error] }
  else
    match decodePrefix data with
    | .error err => { out := (none, some err), reg := r, events := [] }
    | .ok schemaId =>
      let g := GetOrFetch r client schemaId
      match g.out with
      | .error err => { out := (none, some err), reg := g.reg, events := g.events ++ [.log .error] }
      | .ok schema =>
        match engine.NewCodec schema with
        | .error err =>
          { out := (none, some err), reg := g.reg,
            events := g.events ++ [.newCodec schema, .log .error] }
        | .ok codec =>
          match codec.NativeFromBinary (data.drop 5) with
          | .error err =>
            { out := (none, some err), reg := g.reg,
              events := g.events ++ [.newCodec schema, .log .error] }
          | .ok (native, _) =>
            match codec.TextualFromNative [] native with
            | .error err =>
              { out := (none, some err), reg := g.reg,
                events := g.events ++ [.newCodec schema, .log .error] }
            | .ok byt =>
              match g.reg.jsonEncoders schemaId with
              | none =>
                { out := (none, some (.noJsonDecoder schemaId)), reg := g.reg,
                  events := g.events ++ [.newCodec schema, .read .jsonEncoders] }
              | some encoder =>
                { out := encoder byt, reg := g.reg,
                  events := g.events ++ [.newCodec schema, .read .jsonEncoders] }

/-! ## Sequences of registrations -/

/-- One registration call, with the behaviour of the remote service during that call. -/
inductive Call (V : Type)
  | Register (client : Client) (subject : String) (version : Int) (encoder : jsonEncoder V)
  | RegisterLatest (client : Client) (subject : String) (encoder : jsonEncoder V)

/-- Run one registration call. -/
def Call.run {V : Type} (r : SchemaRegistry V) : Call V → Run V (Outcome Unit)
  | .Register client subject version encoder =>
    Registry.Register r client subject version encoder
  | .RegisterLatest client subject encoder => Registry.RegisterLatest r client subject encoder

/-- Run the calls one after the other.  A call that does not return ends the process, so
no state follows it. -/
def runCalls {V : Type} (r : SchemaRegistry V) : List (Call V) → Option (SchemaRegistry V)
  | [] => some r
  | c :: cs =>
    match (c.run r).out with
    | .ret _ => runCalls (c.run r).reg cs
    | _ => none

/-- The states reachable from the empty registry by registrations. -/
def Reachable {V : Type} (r : SchemaRegistry V) : Prop :=
  ∃ calls : List (Call V), runCalls (NewSchemaRegistry V) calls = some r

/-! ## Lock discipline on event sequences -/

/-- Every index read and write of the sequence happens while the mutex is held; `held` says
whether it is held at the start. -/
def guarded : Bool → List Event → Bool
  | _, [] => true
  | _, .lock :: es => guarded true es
  | _, .unlock :: es => guarded false es
  | held, .read _ :: es => held && guarded held es
  | held, .write _ :: es => held && guarded held es
  | held, .remote _ :: es => guarded held es
  | held, .newCodec _ :: es => guarded held es
  | held, .log _ :: es => guarded held es

/-- The remote calls of an event sequence, in order. -/
def remoteCalls : List Event → List RemoteCall
  | [] => []
  | .remote c :: es => c :: remoteCalls es
  | _ :: es => remoteCalls es

/-- The schema texts compiled in an event sequence, in order. -/
def compiled : List Event → List String
  | [] => []
  | .newCodec s :: es => s :: compiled es
  | _ :: es => compiled es

/-! ## Predicates and reference definitions used to state the properties -/

/-- The codec engine converts without loss of values.  For every codec it compiles, a native
value the codec read from a text can be written as a payload, and that payload reads back
as the same native value; it can also be written as a text, and that text reads back as the
same native value.  The text written need not be the text read, byte for byte. -/
def Lossless {D N : Type} (engine : Engine D N) : Prop :=
  ∀ schema codec, engine.NewCodec schema = .ok codec →
    ∀ text native rest, codec.NativeFromTextual text = .ok (native, rest) →
      (∃ payload rest', codec.binaryPayload native = .ok payload ∧
        codec.NativeFromBinary payload = .ok (native, rest')) ∧
      (∃ text' rest', codec.textualPayload native = .ok text' ∧
        codec.NativeFromTextual text' = .ok (native, rest'))

/-- Steps 4 to 7 of `Decode` as the specification words them, on a resolved schema text:
compile a codec from the text; convert the payload to native and then to textual form with
that codec; look up the decode hook of the schema id, failing when there is none; invoke
the hook on the textual bytes and return what it produces. -/
def specDecodeResolved {D N V : Type} (engine : Engine D N) (hook : Option (jsonEncoder V))
    (schemaId : Int) (schema : String) (payload : List Byte) : Option V × Option Error :=
  match engine.NewCodec schema with
  | .error err => (none, some err)
  | .ok codec =>
    match codec.NativeFromBinary payload with
    | .error err => (none, some err)
    | .ok (native, _) =>
      match codec.textualPayload native with
      | .error err => (none, some err)
      | .ok text =>
        match hook with
        | none => (none, some (.noJsonDecoder schemaId))
        | some f => f text

/-! ## Sample collaborators and states -/

/-- A codec whose native values are the bytes themselves. -/
def echoCodec : Codec (List Byte) :=
  { NativeFromTextual := fun t => .ok (t, []),
    binaryPayload := fun n => .ok n,
    NativeFromBinary := fun b => .ok (b, []),
    textualPayload := fun n => .ok n }

/-- An engine that compiles every schema to `echoCodec`. -/
def echoEngine : Engine (List Byte) (List Byte) :=
  { NewCodec := fun _ => .ok echoCodec, Marshal := fun d => .ok d }

/-- A codec that reads a text ignoring its spaces (byte 32) and writes it without any. -/
def compactCodec : Codec (List Byte) :=
  { NativeFromTextual := fun t => .ok (t.filter (fun b => b != 32), []),
    binaryPayload := fun n => .ok n,
    NativeFromBinary := fun b => .ok (b, []),
    textualPayload := fun n => .ok n }

/-- An engine that compiles every schema to `compactCodec`. -/
def compactEngine : Engine (List Byte) (List Byte) :=
  { NewCodec := fun _ => .ok compactCodec, Marshal := fun d => .ok d }

/-- An engine that compiles the schema text "string" only. -/
def strictEngine : Engine (List Byte) (List Byte) :=
  { NewCodec := fun s => if s = "string" then .ok echoCodec else .error (.external "schema"),
    Marshal := fun d => .ok d }

/-- A hook that hands back the JSON bytes. -/
def echoHook : jsonEncoder (List Byte) := fun b => (some b, none)

/-- A hook that hands back the empty value whatever the JSON bytes. -/
def blankHook : jsonEncoder (List Byte) := fun _ => (some [], none)

/-- A remote service that answers every lookup with the same record. -/
def constClient (s : RemoteSchema) : Client :=
  { GetSchemaBySubject := fun _ _ => .ok s,
    GetLatestSchema := fun _ => .ok s,
    GetSchemaById := fun _ => .ok s.Schema }

/-- A remote service that is down. -/
def downClient : Client :=
  { GetSchemaBySubject := fun _ _ => .error (.external "down"),
    GetLatestSchema := fun _ => .error (.external "down"),
    GetSchemaById := fun _ => .error (.external "down") }

def remoteA : RemoteSchema := { Schema := "string", Subject := "a", Version := 1, ID := 7 }

def remoteB : RemoteSchema := { Schema := "string", Subject := "b", Version := 1, ID := 7 }

def remoteWide : RemoteSchema :=
  { Schema := "string", Subject := "s", Version := 1, ID := 4294967296 }

def remoteA2 : RemoteSchema := { Schema := "long", Subject := "a", Version := 2, ID := 8 }

def entryA : Encoder := NewEncoder { Schema := "string", Subject := "a", Version := 1, Id := 7 }

def entryB : Encoder := NewEncoder { Schema := "string", Subject := "b", Version := 1, Id := 7 }

def entryWide : Encoder :=
  NewEncoder { Schema := "string", Subject := "s", Version := 1, Id := 4294967296 }

/-- The registry after `Register("a", 1, echoHook)` resolved to `remoteA`. -/
def regA : SchemaRegistry (List Byte) :=
  (Register (NewSchemaRegistry (List Byte)) (constClient remoteA) "a" 1 echoHook).reg

/-- The registry after `Register("a", ..)` and then `Register("b", ..)`, both resolved to
schema id 7. -/
def regAB : SchemaRegistry (List Byte) :=
  (Register regA (constClient remoteB) "b" 1 echoHook).reg

/-- The registry after `Register("a", 1, echoHook)` and then `Register("b", 1, blankHook)`,
both resolved to schema id 7. -/
def regShared : SchemaRegistry (List Byte) :=
  (Register regA (constClient remoteB) "b" 1 blankHook).reg

/-- The registry after `Register("s", 1, echoHook)` resolved to schema id `2^32`. -/
def regWide : SchemaRegistry (List Byte) :=
  (Register (NewSchemaRegistry (List Byte)) (constClient remoteWide) "s" 1 echoHook).reg

deriving instance DecidableEq for Except

/-! ## Facts about the prefix -/

theorem or_shiftLeft_eq_add (a b i : Nat) (h : b < 2 ^ i) : b ||| a <<< i = a * 2 ^ i + b := by
  rw [Nat.shiftLeft_eq, Nat.or_comm, Nat.mul_comm a, Nat.mul_add_lt_is_or h]

theorem Uint32_eq_sum (b0 b1 b2 b3 : Byte) :
    Uint32 b0 b1 b2 b3 = b0.val * 2 ^ 24 + b1.val * 2 ^ 16 + b2.val * 2 ^ 8 + b3.val := by
  have h0 := b0.isLt
  have h1 := b1.isLt
  have h2 := b2.isLt
  have h3 := b3.isLt
  unfold Uint32
  rw [or_shiftLeft_eq_add b2.val b3.val 8 (by omega),
    or_shiftLeft_eq_add b1.val _ 16 (by omega),
    or_shiftLeft_eq_add b0.val _ 24 (by omega)]
  omega

theorem uint32_lt (id : Int) : uint32 id < 2 ^ 32 := by
  unfold uint32
  omega

theorem uint32_cast (id : Int) : Int.ofNat (uint32 id) = id % 2 ^ 32 := by
  unfold uint32
  simp only [Int.ofNat_eq_coe]
  omega

theorem Uint32_PutUint32 (v : Nat) (hv : v < 2 ^ 32) :
    Uint32 (toByte (v >>> 24)) (toByte (v >>> 16)) (toByte (v >>> 8)) (toByte v) = v := by
  rw [Uint32_eq_sum]
  simp only [toByte, Nat.shiftRight_eq_div_pow]
  omega

theorem decodePrefix_encodePrefix_mod (id : Int) (p : List Byte) :
    decodePrefix (encodePrefix id ++ p) = .ok (id % 2 ^ 32) := by
  simp only [encodePrefix, PutUint32, List.cons_append, List.nil_append, decodePrefix]
  rw [Uint32_PutUint32 _ (uint32_lt id), uint32_cast]

theorem encodePrefix_length (id : Int) : (encodePrefix id).length = 5 := rfl

theorem decodePrefix_cons (m b1 b2 b3 b4 : Byte) (q : List Byte) :
    decodePrefix (m :: b1 :: b2 :: b3 :: b4 :: q)
      = .ok (Int.ofNat (b1.val * 2 ^ 24 + b2.val * 2 ^ 16 + b3.val * 2 ^ 8 + b4.val)) := by
  simp only [decodePrefix, Uint32_eq_sum]

theorem exists_header_of_length (data : List Byte) (h : 5 ≤ data.length) :
    ∃ m b1 b2 b3 b4 q, data = m :: b1 :: b2 :: b3 :: b4 :: q := by
  match data, h with
  | m :: b1 :: b2 :: b3 :: b4 :: q, _ => exact ⟨m, b1, b2, b3, b4, q, rfl⟩

/-! ## Encode -/

theorem Encode_ok_shape {D N : Type} (engine : Engine D N) (s : Encoder) (data : D)
    (out : List Byte) (h : Encode engine s data = .ok out) :
    ∃ p, out = encodePrefix s.subject.Id ++ p := by
  unfold Encode at h
  split at h
  · cases h
  · split at h
    · cases h
    · split at h
      · cases h
      · simp only [Codec.BinaryFromNative] at h
        split at h
        · cases h
        · rename_i p _
          exact ⟨p, by cases h; rfl⟩

/-- C1: whenever `Encode` succeeds on an encoder whose entry has schema id `I`, the output has
at least 5 bytes and starts with the 5 bytes built by `encodePrefix`: the byte 0x00 and then
the four bytes of the 32-bit big-endian encoding of `I`, whose value is `I` reduced to 32
bits, hence `I` itself when `0 ≤ I < 2^32`. -/
theorem Encode_header {D N : Type} (engine : Engine D N) (s : Encoder) (data : D)
    (out : List Byte) (h : Encode engine s data = .ok out) :
    5 ≤ out.length ∧ out.take 5 = encodePrefix s.subject.Id ∧
      ∃ b1 b2 b3 b4 : Byte, out.take 5 = [0, b1, b2, b3, b4] ∧
        Int.ofNat (b1.val * 2 ^ 24 + b2.val * 2 ^ 16 + b3.val * 2 ^ 8 + b4.val)
          = s.subject.Id % 2 ^ 32 ∧
        (0 ≤ s.subject.Id → s.subject.Id < 2 ^ 32 →
          Int.ofNat (b1.val * 2 ^ 24 + b2.val * 2 ^ 16 + b3.val * 2 ^ 8 + b4.val)
            = s.subject.Id) := by
  obtain ⟨p, rfl⟩ := Encode_ok_shape engine s data out h
  have htake : (encodePrefix s.subject.Id ++ p).take 5 = encodePrefix s.subject.Id := by
    simp [encodePrefix, PutUint32]
  refine ⟨by simp [encodePrefix_length], htake, ?_⟩
  refine ⟨toByte (uint32 s.subject.Id >>> 24), toByte (uint32 s.subject.Id >>> 16),
    toByte (uint32 s.subject.Id >>> 8), toByte (uint32 s.subject.Id), ?_, ?_⟩
  · rw [htake]; rfl
  · have hval : Int.ofNat ((toByte (uint32 s.subject.Id >>> 24)).val * 2 ^ 24
        + (toByte (uint32 s.subject.Id >>> 16)).val * 2 ^ 16
        + (toByte (uint32 s.subject.Id >>> 8)).val * 2 ^ 8
        + (toByte (uint32 s.subject.Id)).val) = s.subject.Id % 2 ^ 32 := by
      rw [← Uint32_eq_sum, Uint32_PutUint32 _ (uint32_lt _), uint32_cast]
    refine ⟨hval, ?_⟩
    intro h0 h1
    rw [hval, Int.emod_eq_of_lt h0 h1]

theorem Encode_header_witness :
    Encode echoEngine entryA [1, 2] = .ok [0, 0, 0, 0, 7, 1, 2] ∧
    (5 ≤ ([0, 0, 0, 0, 7, 1, 2] : List Byte).length ∧
      ([0, 0, 0, 0, 7, 1, 2] : List Byte).take 5 = encodePrefix entryA.subject.Id ∧
      ∃ b1 b2 b3 b4 : Byte, ([0, 0, 0, 0, 7, 1, 2] : List Byte).take 5 = [0, b1, b2, b3, b4] ∧
        Int.ofNat (b1.val * 2 ^ 24 + b2.val * 2 ^ 16 + b3.val * 2 ^ 8 + b4.val)
          = entryA.subject.Id % 2 ^ 32 ∧
        (0 ≤ entryA.subject.Id → entryA.subject.Id < 2 ^ 32 →
          Int.ofNat (b1.val * 2 ^ 24 + b2.val * 2 ^ 16 + b3.val * 2 ^ 8 + b4.val)
            = entryA.subject.Id)) :=
  ⟨by decide, Encode_header echoEngine entryA [1, 2] [0, 0, 0, 0, 7, 1, 2] (by decide)⟩

/-! ## The prefix round trip -/

/-- C3, as stated, fails: for the schema id `2^32` the prefix holds the four bytes 0 and
`decodePrefix` returns 0, not `2^32`. -/
theorem decodePrefix_encodePrefix_wide :
    decodePrefix (encodePrefix 4294967296 ++ [7]) = .ok 0 ∧
      decodePrefix (encodePrefix 4294967296 ++ [7]) ≠ .ok 4294967296 := by
  decide

/-- C3, amended: for every schema id `I` with `0 ≤ I < 2^32` and every payload `p`,
`decodePrefix (encodePrefix I ++ p)` returns `I` without error; on any message of at least 5
bytes the result is the big-endian value of bytes 1..4, whatever byte 0 and the bytes from
index 5 on are. -/
theorem decodePrefix_encodePrefix_of_fits (I : Int) (p : List Byte) (h0 : 0 ≤ I)
    (h1 : I < 2 ^ 32) :
    decodePrefix (encodePrefix I ++ p) = .ok I ∧
      ∀ (m b1 b2 b3 b4 : Byte) (q : List Byte),
        decodePrefix (m :: b1 :: b2 :: b3 :: b4 :: q)
          = .ok (Int.ofNat (b1.val * 2 ^ 24 + b2.val * 2 ^ 16 + b3.val * 2 ^ 8 + b4.val)) := by
  refine ⟨?_, decodePrefix_cons⟩
  rw [decodePrefix_encodePrefix_mod, Int.emod_eq_of_lt h0 h1]

theorem decodePrefix_encodePrefix_of_fits_witness :
    (0 : Int) ≤ 258 ∧ (258 : Int) < 2 ^ 32 ∧
      (decodePrefix (encodePrefix 258 ++ [9, 9]) = .ok 258 ∧
        ∀ (m b1 b2 b3 b4 : Byte) (q : List Byte),
          decodePrefix (m :: b1 :: b2 :: b3 :: b4 :: q)
            = .ok (Int.ofNat (b1.val * 2 ^ 24 + b2.val * 2 ^ 16 + b3.val * 2 ^ 8 + b4.val))) :=
  ⟨by decide, by decide, decodePrefix_encodePrefix_of_fits 258 [9, 9] (by decide) (by decide)⟩

/-! ## Get -/

/-- C4: on the empty registry `Get(1)` does not return: after logging, `sub.Schema()` runs on
the nil entry and the call panics. -/
theorem Get_absent_panics :
    (Get (NewSchemaRegistry Unit) 1).out = .panicked ∧
      (Get (NewSchemaRegistry Unit) 1).out ≠ .ret (.ok "") ∧
      (Get (NewSchemaRegistry Unit) 1).events
        = [.lock, .read .schemaIds, .unlock, .log .error] := by
  decide

/-! ## Registration -/

theorem Register_ok {V : Type} (r : SchemaRegistry V) (client : Client) (S : String)
    (version : Int) (hook : jsonEncoder V) (sub : RemoteSchema)
    (hR : client.GetSchemaBySubject S version = .ok sub) :
    (Register r client S version hook).out = .ret () ∧
      (Register r client S version hook).reg =
        { schemas := assign r.schemas S (NewEncoder
            { Schema := sub.Schema, Subject := sub.Subject, Version := sub.Version,
              Id := sub.ID }),
          schemaIds := assign r.schemaIds sub.ID (NewEncoder
            { Schema := sub.Schema, Subject := sub.Subject, Version := sub.Version,
              Id := sub.ID }),
          jsonEncoders := assign r.jsonEncoders sub.ID hook } := by
  simp only [Register, GetBySubject, hR, and_self]

theorem run_ret_reg {V : Type} (r : SchemaRegistry V) (c : Call V)
    (h : (c.run r).out = .ret ()) :
    ∃ (subject : String) (e : Encoder) (encoder : jsonEncoder V),
      (c.run r).reg =
        { schemas := assign r.schemas subject e,
          schemaIds := assign r.schemaIds e.subject.Id e,
          jsonEncoders := assign r.jsonEncoders e.subject.Id encoder } := by
  cases c with
  | Register client subject version encoder =>
    simp only [Call.run, Register, GetBySubject] at h ⊢
    cases hq : client.GetSchemaBySubject subject version with
    | error err => simp [hq] at h
    | ok sub => exact ⟨subject, NewEncoder _, encoder, rfl⟩
  | RegisterLatest client subject encoder =>
    simp only [Call.run, RegisterLatest, GetLatest] at h ⊢
    cases hs : r.schemas subject with
    | some e0 => simp [hs] at h
    | none =>
      cases hq : client.GetLatestSchema subject with
      | error err => simp [hs, hq] at h
      | ok sub => exact ⟨subject, NewEncoder _, encoder, rfl⟩

theorem runCalls_invariant {V : Type} (P : SchemaRegistry V → Prop)
    (hstep : ∀ r c, P r → (Call.run r c).out = .ret () → P (Call.run r c).reg) :
    ∀ (calls : List (Call V)) (r r' : SchemaRegistry V), P r → runCalls r calls = some r' →
      P r' := by
  intro calls
  induction calls with
  | nil =>
    intro r r' hP h
    simp only [runCalls, Option.some.injEq] at h
    exact h ▸ hP
  | cons c cs ih =>
    intro r r' hP h
    simp only [runCalls] at h
    cases hout : (Call.run r c).out with
    | ret u =>
      rw [hout] at h
      exact ih _ _ (hstep r c hP (by rw [hout])) h
    | fatal => rw [hout] at h; cases h
    | panicked => rw [hout] at h; cases h

theorem Reachable.invariant {V : Type} (P : SchemaRegistry V → Prop)
    (h0 : P (NewSchemaRegistry V))
    (hstep : ∀ r c, P r → (Call.run r c).out = .ret () → P (Call.run r c).reg)
    (r : SchemaRegistry V) (hr : Reachable r) : P r := by
  obtain ⟨calls, hcalls⟩ := hr
  exact runCalls_invariant P hstep calls _ _ h0 hcalls

/-- C5, as stated, fails: after `Register("a", ..)` and `Register("b", ..)` both resolved to
schema id 7, the subject index binds "a" to the first entry while the id index binds 7 to
the second entry. -/
theorem subject_entry_not_in_id_index :
    Reachable regAB ∧ regAB.schemas "a" = some entryA ∧ entryA.subject.Id = 7 ∧
      regAB.schemaIds 7 = some entryB ∧ regAB.schemaIds entryA.subject.Id ≠ some entryA := by
  refine ⟨⟨[.Register (constClient remoteA) "a" 1 echoHook,
    .Register (constClient remoteB) "b" 1 echoHook], rfl⟩, ?_, ?_, ?_, ?_⟩ <;> decide

/-- C5, amended: in every state reachable from the empty registry by `Register` and
`RegisterLatest` calls, for every entry the subject index binds to some subject the
schema-id index has a binding under that entry's schema id, to an entry with that same id. -/
theorem subject_entry_id_bound {V : Type} (r : SchemaRegistry V) (hr : Reachable r)
    (S : String) (e : Encoder) (hS : r.schemas S = some e) :
    ∃ e', r.schemaIds e.subject.Id = some e' ∧ e'.subject.Id = e.subject.Id := by
  revert S e
  refine Reachable.invariant
    (fun r => ∀ S e, r.schemas S = some e →
      ∃ e', r.schemaIds e.subject.Id = some e' ∧ e'.subject.Id = e.subject.Id) ?_ ?_ r hr
  · intro S e h
    simp [NewSchemaRegistry] at h
  · intro r c ih hret S e h
    obtain ⟨subject, e1, encoder, hreg⟩ := run_ret_reg r c hret
    rw [hreg] at h ⊢
    simp only [assign] at h ⊢
    by_cases hid : e.subject.Id = e1.subject.Id
    · exact ⟨e1, by simp [hid], hid.symm⟩
    · have hne : S ≠ subject := by
        intro heq
        simp only [heq, if_true, Option.some.injEq] at h
        exact hid (by rw [h])
      simp only [hne, if_false] at h
      obtain ⟨e', h1, h2⟩ := ih S e h
      exact ⟨e', by simp [hid, h1], h2⟩

theorem subject_entry_id_bound_witness :
    Reachable regAB ∧ regAB.schemas "a" = some entryA ∧
      ∃ e', regAB.schemaIds entryA.subject.Id = some e' ∧
        e'.subject.Id = entryA.subject.Id :=
  have hr : Reachable regAB :=
    ⟨[.Register (constClient remoteA) "a" 1 echoHook,
      .Register (constClient remoteB) "b" 1 echoHook], rfl⟩
  ⟨hr, by decide, subject_entry_id_bound regAB hr "a" entryA (by decide)⟩

/-- C6: when subject `S` is already bound and the remote lookup succeeds, `Register` returns
and leaves `S` bound to the newly resolved entry (which the id index binds under its id,
with the new hook), whereas `RegisterLatest` ends in `log.Fatal` with the three indices as
they were and without a single index write. -/
theorem Register_overwrites_RegisterLatest_fatal {V : Type} (r : SchemaRegistry V)
    (client : Client) (S : String) (version : Int) (hook : jsonEncoder V) (e0 : Encoder)
    (sub : RemoteSchema) (hS : r.schemas S = some e0)
    (hR : client.GetSchemaBySubject S version = .ok sub) :
    ((Register r client S version hook).out = .ret () ∧
      (Register r client S version hook).reg.schemas S = some (NewEncoder
        { Schema := sub.Schema, Subject := sub.Subject, Version := sub.Version,
          Id := sub.ID }) ∧
      (Register r client S version hook).reg.schemaIds sub.ID = some (NewEncoder
        { Schema := sub.Schema, Subject := sub.Subject, Version := sub.Version,
          Id := sub.ID }) ∧
      (Register r client S version hook).reg.jsonEncoders sub.ID = some hook) ∧
    ((RegisterLatest r client S hook).out = .fatal ∧
      (RegisterLatest r client S hook).reg = r ∧
      (RegisterLatest r client S hook).events = [.read .schemas, .log .fatal]) := by
  obtain ⟨h1, h2⟩ := Register_ok r client S version hook sub hR
  refine ⟨⟨h1, ?_, ?_, ?_⟩, ?_⟩
  · rw [h2]; simp [assign]
  · rw [h2]; simp [assign]
  · rw [h2]; simp [assign]
  · simp only [RegisterLatest, hS, and_self]

theorem Register_overwrites_RegisterLatest_fatal_witness :
    regA.schemas "a" = some entryA ∧
    (constClient remoteA2).GetSchemaBySubject "a" 2 = .ok remoteA2 ∧
    (Register regA (constClient remoteA2) "a" 2 echoHook).out = .ret () ∧
    (Register regA (constClient remoteA2) "a" 2 echoHook).reg.schemas "a"
      = some (NewEncoder { Schema := "long", Subject := "a", Version := 2, Id := 8 }) ∧
    (RegisterLatest regA (constClient remoteA2) "a" echoHook).out = .fatal :=
  have h := Register_overwrites_RegisterLatest_fatal regA (constClient remoteA2) "a" 2 echoHook
    entryA remoteA2 (by decide) rfl
  ⟨by decide, rfl, h.1.1, h.1.2.1, h.2.1⟩

/-- C7, as stated, fails: in the reachable state where "a" and "b" both resolved to schema
id 7, subject "a" is bound to its own entry with id 7 while the id index binds 7 to the entry
of "b"; after `Register("a", 2, ..)` resolves to id 8 the id index binds 7 to the entry of
"b", not to the earlier entry of "a". -/
theorem Register_earlier_entry_not_kept :
    Reachable regAB ∧ regAB.schemas "a" = some entryA ∧ entryA.subject.Id = 7 ∧
    (constClient remoteA2).GetSchemaBySubject "a" 2 = .ok remoteA2 ∧ remoteA2.ID = 8 ∧
    (Register regAB (constClient remoteA2) "a" 2 echoHook).out = .ret () ∧
    (Register regAB (constClient remoteA2) "a" 2 echoHook).reg.schemaIds 7 = some entryB ∧
    (Register regAB (constClient remoteA2) "a" 2 echoHook).reg.schemaIds 7 ≠ some entryA := by
  refine ⟨⟨[.Register (constClient remoteA) "a" 1 echoHook,
    .Register (constClient remoteB) "b" 1 echoHook], rfl⟩, ?_, ?_, ?_, ?_, ?_, ?_, ?_⟩ <;> decide

/-- C7, amended: a successful `Register(S, version, hook)` that resolves to schema id `J`
keeps the binding of every subject other than `S`, and keeps the entry and the hook of
every schema id other than `J`; in particular, when `S` was bound to an entry with id
`I ≠ J`, the id index and the hook index bind `I` exactly as before the call, so the id index
still binds `I` to that earlier entry whenever it bound `I` to it before. -/
theorem Register_frame {V : Type} (r : SchemaRegistry V) (client : Client) (S : String)
    (version : Int) (hook : jsonEncoder V) (sub : RemoteSchema)
    (hR : client.GetSchemaBySubject S version = .ok sub) :
    (Register r client S version hook).out = .ret () ∧
    (∀ S', S' ≠ S → (Register r client S version hook).reg.schemas S' = r.schemas S') ∧
    (∀ K, K ≠ sub.ID →
      (Register r client S version hook).reg.schemaIds K = r.schemaIds K ∧
      (Register r client S version hook).reg.jsonEncoders K = r.jsonEncoders K) ∧
    (∀ e : Encoder, r.schemas S = some e → e.subject.Id ≠ sub.ID →
      (Register r client S version hook).reg.schemaIds e.subject.Id
        = r.schemaIds e.subject.Id ∧
      (Register r client S version hook).reg.jsonEncoders e.subject.Id
        = r.jsonEncoders e.subject.Id ∧
      (r.schemaIds e.subject.Id = some e →
        (Register r client S version hook).reg.schemaIds e.subject.Id = some e)) := by
  obtain ⟨h1, h2⟩ := Register_ok r client S version hook sub hR
  have hK : ∀ K, K ≠ sub.ID →
      (Register r client S version hook).reg.schemaIds K = r.schemaIds K ∧
      (Register r client S version hook).reg.jsonEncoders K = r.jsonEncoders K := by
    intro K hne
    rw [h2]
    simp [assign, hne]
  refine ⟨h1, ?_, hK, ?_⟩
  · intro S' hne
    rw [h2]
    simp [assign, hne]
  · intro e _ hne
    obtain ⟨k1, k2⟩ := hK e.subject.Id hne
    exact ⟨k1, k2, fun hid => k1.trans hid⟩

theorem Register_frame_witness :
    (constClient remoteA2).GetSchemaBySubject "a" 2 = .ok remoteA2 ∧
    regA.schemas "a" = some entryA ∧ entryA.subject.Id ≠ remoteA2.ID ∧
    regA.schemaIds entryA.subject.Id = some entryA ∧
    (Register regA (constClient remoteA2) "a" 2 echoHook).out = .ret () ∧
    (Register regA (constClient remoteA2) "a" 2 echoHook).reg.schemas "b" = regA.schemas "b" ∧
    (Register regA (constClient remoteA2) "a" 2 echoHook).reg.schemaIds entryA.subject.Id
      = some entryA ∧
    (Register regA (constClient remoteA2) "a" 2 echoHook).reg.jsonEncoders entryA.subject.Id
      = regA.jsonEncoders entryA.subject.Id :=
  have h := Register_frame regA (constClient remoteA2) "a" 2 echoHook remoteA2 rfl
  have h4 := h.2.2.2 entryA (by decide) (by decide)
  ⟨rfl, by decide, by decide, by decide, h.1, h.2.1 "b" (by decide), h4.2.2 (by decide),
    h4.2.1⟩

/-! ## Decode -/

theorem Decode_reg {D N V : Type} (r : SchemaRegistry V) (client : Client) (engine : Engine D N)
    (data : List Byte) : (Decode r client engine data).reg = r := by
  unfold Decode GetOrFetch
  repeat' (first | rfl | split | dsimp only)

theorem GetOrFetch_reg {V : Type} (r : SchemaRegistry V) (client : Client) (id : Int) :
    (GetOrFetch r client id).reg = r := by
  unfold GetOrFetch
  split <;> rfl

theorem Decode_out_resolved {D N V : Type} (r : SchemaRegistry V) (client : Client)
    (engine : Engine D N) (data : List Byte) (id : Int) (schema : String)
    (hlen : ¬ data.length < 5) (hid : decodePrefix data = .ok id)
    (hg : (GetOrFetch r client id).out = .ok schema) :
    (Decode r client engine data).out
      = specDecodeResolved engine (r.jsonEncoders id) id schema (data.drop 5) := by
  simp only [Decode, hlen, if_false, hid, hg, GetOrFetch_reg, specDecodeResolved,
    Codec.TextualFromNative]
  cases hc : engine.NewCodec schema with
  | error err => rfl
  | ok codec =>
    dsimp only
    cases hb : codec.NativeFromBinary (data.drop 5) with
    | error err => rfl
    | ok p =>
      obtain ⟨native, rest⟩ := p
      dsimp only
      cases ht : codec.textualPayload native with
      | error err => rfl
      | ok text =>
        dsimp only [List.nil_append]
        cases hh : r.jsonEncoders id with
        | none => rfl
        | some f => rfl

theorem Decode_absent {D N V : Type} (r : SchemaRegistry V) (client : Client)
    (engine : Engine D N) (data : List Byte) (id : Int) (h5 : 5 ≤ data.length)
    (hid : decodePrefix data = .ok id) (habs : r.schemaIds id = none) :
    remoteCalls (Decode r client engine data).events = [.GetSchemaById id] ∧
    (∀ err, client.GetSchemaById id = .error err →
      (Decode r client engine data).out = (none, some err) ∧
      compiled (Decode r client engine data).events = []) ∧
    (∀ text, client.GetSchemaById id = .ok text →
      compiled (Decode r client engine data).events = [text] ∧
      (Decode r client engine data).out
        = specDecodeResolved engine (r.jsonEncoders id) id text (data.drop 5)) := by
  have hlen : ¬ data.length < 5 := by omega
  refine ⟨?_, ?_, ?_⟩
  · simp only [Decode, hlen, if_false, hid, GetOrFetch, habs]
    repeat' (first | rfl | split)
  · intro err herr
    simp only [Decode, hlen, if_false, hid, GetOrFetch, habs, herr]
    exact ⟨trivial, rfl⟩
  · intro text htext
    refine ⟨?_, ?_⟩
    · simp only [Decode, hlen, if_false, hid, GetOrFetch, habs, htext]
      repeat' (first | rfl | split)
    · exact Decode_out_resolved r client engine data id text hlen hid
        (by simp only [GetOrFetch, habs, htext])

theorem Decode_present {D N V : Type} (r : SchemaRegistry V) (client : Client)
    (engine : Engine D N) (data : List Byte) (id : Int) (e : Encoder) (h5 : 5 ≤ data.length)
    (hid : decodePrefix data = .ok id) (hpres : r.schemaIds id = some e) :
    remoteCalls (Decode r client engine data).events = [] ∧
      compiled (Decode r client engine data).events = [e.subject.Schema] ∧
      (Decode r client engine data).out
        = specDecodeResolved engine (r.jsonEncoders id) id e.subject.Schema (data.drop 5) := by
  have hlen : ¬ data.length < 5 := by omega
  refine ⟨?_, ?_, ?_⟩
  · simp only [Decode, hlen, if_false, hid, GetOrFetch, hpres]
    repeat' (first | rfl | split)
  · simp only [Decode, hlen, if_false, hid, GetOrFetch, hpres, Encoder.Schema]
    repeat' (first | rfl | split)
  · exact Decode_out_resolved r client engine data id e.subject.Schema hlen hid
      (by simp only [GetOrFetch, hpres, Encoder.Schema])

/-- C8: on a message of at least 5 bytes `Decode` parses a schema id and leaves the three
indices unchanged.  If the id is absent from the schema-id index, the remote calls of
`Decode` are exactly one `GetSchemaById` with that id; an error of that call is the error
`Decode` returns and nothing is compiled; a returned text is the one schema text compiled,
and `Decode` returns what decoding the payload with the codec of that text and the hook of
the id gives.  If the id is present, `Decode` makes no remote call, compiles the cached
schema text and returns what decoding the payload with the codec of the cached text and the
hook of the id gives. -/
theorem Decode_remote_fallback {D N V : Type} (r : SchemaRegistry V) (client : Client)
    (engine : Engine D N) (data : List Byte) (h5 : 5 ≤ data.length) :
    ∃ id, decodePrefix data = .ok id ∧ (Decode r client engine data).reg = r ∧
      (r.schemaIds id = none →
        remoteCalls (Decode r client engine data).events = [.GetSchemaById id] ∧
        (∀ err, client.GetSchemaById id = .error err →
          (Decode r client engine data).out = (none, some err) ∧
          compiled (Decode r client engine data).events = []) ∧
        (∀ text, client.GetSchemaById id = .ok text →
          compiled (Decode r client engine data).events = [text] ∧
          (Decode r client engine data).out
            = specDecodeResolved engine (r.jsonEncoders id) id text (data.drop 5))) ∧
      (∀ e, r.schemaIds id = some e →
        remoteCalls (Decode r client engine data).events = [] ∧
        compiled (Decode r client engine data).events = [e.subject.Schema] ∧
        (Decode r client engine data).out
          = specDecodeResolved engine (r.jsonEncoders id) id e.subject.Schema
              (data.drop 5)) := by
  obtain ⟨m, b1, b2, b3, b4, q, rfl⟩ := exists_header_of_length data h5
  refine ⟨_, decodePrefix_cons m b1 b2 b3 b4 q, Decode_reg _ _ _ _, ?_, ?_⟩
  · intro habs
    exact Decode_absent r client engine _ _ h5 (decodePrefix_cons m b1 b2 b3 b4 q) habs
  · intro e hpres
    exact Decode_present r client engine _ _ e h5 (decodePrefix_cons m b1 b2 b3 b4 q) hpres

theorem Decode_remote_fallback_witness :
    5 ≤ ([0, 0, 0, 0, 9, 1] : List Byte).length ∧
    remoteCalls (Decode regA (constClient remoteA2) strictEngine [0, 0, 0, 0, 9, 1]).events
      = [.GetSchemaById 9] ∧
    (Decode regA (constClient remoteA2) strictEngine [0, 0, 0, 0, 9, 1]).out
      = (none, some (.external "schema")) ∧
    (Decode regA (constClient remoteA) strictEngine [0, 0, 0, 0, 9, 1]).out
      = (none, some (.noJsonDecoder 9)) ∧
    remoteCalls (Decode regA (constClient remoteA2) strictEngine [0, 0, 0, 0, 7, 1]).events
      = [] ∧
    (Decode regA (constClient remoteA2) strictEngine [0, 0, 0, 0, 7, 1]).out
      = (some [1], none) := by
  have h9 := Decode_remote_fallback regA (constClient remoteA2) strictEngine
    [0, 0, 0, 0, 9, 1] (by decide)
  have h9a := Decode_remote_fallback regA (constClient remoteA) strictEngine
    [0, 0, 0, 0, 9, 1] (by decide)
  have h7 := Decode_remote_fallback regA (constClient remoteA2) strictEngine
    [0, 0, 0, 0, 7, 1] (by decide)
  obtain ⟨id9, e9, -, a9, -⟩ := h9
  obtain ⟨id9a, e9a, -, a9a, -⟩ := h9a
  obtain ⟨id7, e7, -, -, p7⟩ := h7
  have d9 : decodePrefix ([0, 0, 0, 0, 9, 1] : List Byte) = .ok 9 := by decide
  have d7 : decodePrefix ([0, 0, 0, 0, 7, 1] : List Byte) = .ok 7 := by decide
  have i9 : id9 = 9 := by
    rw [d9] at e9
    cases e9; rfl
  have i9a : id9a = 9 := by
    rw [d9] at e9a
    cases e9a; rfl
  have i7 : id7 = 7 := by
    rw [d7] at e7
    cases e7; rfl
  subst i9 i9a i7
  refine ⟨by decide, (a9 (by decide)).1, ?_, ?_, (p7 entryA (by decide)).1, ?_⟩
  · rw [((a9 (by decide)).2.2 "long" rfl).2]
    decide
  · rw [((a9a (by decide)).2.2 "string" rfl).2]
    decide
  · rw [(p7 entryA (by decide)).2.2]
    decide

/-! ## Lock discipline -/

/-- C9: the call `Register("a", 1, echoHook)` on the empty registry reads and writes the
indices and performs no lock operation at all, and `Decode` reads the hook index after the
mutex was released; for every input `Register` and `RegisterLatest` access the indices
without the mutex held, while `WithSchema`, `Get` and `GetOrFetch` hold it around their
index read. -/
theorem registration_not_guarded {V : Type} :
    (Register (NewSchemaRegistry (List Byte)) (constClient remoteA) "a" 1 echoHook).events
      = [.read .schemas, .remote (.GetSchemaBySubject "a" 1), .write .schemas,
          .write .schemaIds, .write .jsonEncoders] ∧
    guarded false (Decode regA downClient echoEngine [0, 0, 0, 0, 7, 1]).events = false ∧
    (∀ (r : SchemaRegistry V) client subject version encoder,
      guarded false (Register r client subject version encoder).events = false) ∧
    (∀ (r : SchemaRegistry V) client subject encoder,
      guarded false (RegisterLatest r client subject encoder).events = false) ∧
    (∀ (r : SchemaRegistry V) subject,
      guarded false (WithSchema r subject).events = true) ∧
    (∀ (r : SchemaRegistry V) schemaId,
      guarded false (Get r schemaId).events = true) ∧
    (∀ (r : SchemaRegistry V) client schemaId,
      guarded false (GetOrFetch r client schemaId).events = true) := by
  refine ⟨by decide, by decide, ?_, ?_, ?_, ?_, ?_⟩
  · intro r client subject version encoder
    unfold Register
    repeat' split
    all_goals simp [guarded]
  · intro r client subject encoder
    unfold RegisterLatest
    repeat' split
    all_goals simp [guarded]
  · intro r subject
    unfold WithSchema
    split <;> simp [guarded]
  · intro r schemaId
    unfold Get
    cases r.schemaIds schemaId <;> simp [guarded]
  · intro r client schemaId
    unfold GetOrFetch
    split <;> simp [guarded]

/-! ## The id index and the hook index -/

/-- C10: in every state reachable from the empty registry by `Register` and `RegisterLatest`
calls, a schema id is bound in the schema-id index exactly when it is bound in the hook
index; and `Decode` of a message whose schema id is absent from the schema-id index returns
an error and no value, whatever the remote client and the codec engine answer. -/
theorem ids_hooks_same_keys {D N V : Type} (r : SchemaRegistry V) (hr : Reachable r)
    (client : Client) (engine : Engine D N) (data : List Byte) (id : Int)
    (hid : decodePrefix data = .ok id) (habs : r.schemaIds id = none) :
    (∀ k, (r.schemaIds k).isSome = (r.jsonEncoders k).isSome) ∧
      ∃ err, (Decode r client engine data).out = (none, some err) := by
  have hkeys : ∀ k, (r.schemaIds k).isSome = (r.jsonEncoders k).isSome := by
    refine Reachable.invariant
      (fun r => ∀ k, (r.schemaIds k).isSome = (r.jsonEncoders k).isSome) ?_ ?_ r hr
    · intro k
      rfl
    · intro r c ih hret k
      obtain ⟨subject, e1, encoder, hreg⟩ := run_ret_reg r c hret
      rw [hreg]
      simp only [assign]
      by_cases hk : k = e1.subject.Id
      · simp [hk]
      · simp [hk, ih k]
  refine ⟨hkeys, ?_⟩
  have hhook : r.jsonEncoders id = none := by
    have := hkeys id
    rw [habs] at this
    cases hj : r.jsonEncoders id with
    | none => rfl
    | some f => rw [hj] at this; cases this
  simp only [Decode, hid, GetOrFetch, habs, hhook]
  repeat' (first | exact ⟨_, rfl⟩ | split)

theorem ids_hooks_same_keys_witness :
    Reachable regA ∧ decodePrefix ([0, 0, 0, 0, 9, 1] : List Byte) = .ok 9 ∧
    regA.schemaIds 9 = none ∧
    ((∀ k, (regA.schemaIds k).isSome = (regA.jsonEncoders k).isSome) ∧
      ∃ err, (Decode regA (constClient remoteA) echoEngine [0, 0, 0, 0, 9, 1]).out
        = (none, some err)) :=
  have hr : Reachable regA := ⟨[.Register (constClient remoteA) "a" 1 echoHook], rfl⟩
  ⟨hr, by decide, by decide,
    ids_hooks_same_keys regA hr (constClient remoteA) echoEngine [0, 0, 0, 0, 9, 1] 9
      (by decide) (by decide)⟩

/-! ## The round trip -/

theorem echoEngine_lossless : Lossless echoEngine := by
  intro schema codec hc text native rest hn
  simp only [echoEngine, Except.ok.injEq] at hc
  subst hc
  simp only [echoCodec, Except.ok.injEq, Prod.mk.injEq] at hn
  obtain ⟨rfl, rfl⟩ := hn
  exact ⟨⟨text, [], rfl, rfl⟩, text, [], rfl, rfl⟩

theorem compactEngine_lossless : Lossless compactEngine := by
  intro schema codec hc text native rest hn
  simp only [compactEngine, Except.ok.injEq] at hc
  subst hc
  simp only [compactCodec, Except.ok.injEq, Prod.mk.injEq] at hn
  obtain ⟨rfl, rfl⟩ := hn
  refine ⟨⟨_, [], rfl, rfl⟩, _, [], rfl, ?_⟩
  simp [compactCodec, List.filter_filter]

/-- C2, as stated, fails in three ways.  With subject "s" registered under schema id `2^32`,
`Encode` writes the id bytes 0 0 0 0 and `Decode` looks up id 0, finds no hook and returns
an error.  With "a" registered with `echoHook` and then "b" registered with `blankHook`, both
resolved to schema id 7, `Decode` of what the encoder of "a" wrote returns the value of
`blankHook`.  With a lossless codec that ignores spaces, `Decode` hands the hook the text
the codec wrote, and the hook's value on it differs from its value on the JSON form of the
value encoded. -/
theorem round_trip_fails :
    (regWide.schemas "s" = some entryWide ∧ entryWide.subject.Id = 4294967296 ∧
      regWide.schemaIds 4294967296 = some entryWide ∧
      regWide.jsonEncoders 4294967296 = some echoHook ∧ Lossless echoEngine ∧
      echoEngine.Marshal [1, 2] = .ok [1, 2] ∧
      Encode echoEngine entryWide [1, 2] = .ok [0, 0, 0, 0, 0, 1, 2] ∧
      (Decode regWide (constClient remoteWide) echoEngine [0, 0, 0, 0, 0, 1, 2]).out
        = (none, some (.noJsonDecoder 0)) ∧
      (Decode regWide (constClient remoteWide) echoEngine [0, 0, 0, 0, 0, 1, 2]).out
        ≠ echoHook [1, 2]) ∧
    (runCalls (NewSchemaRegistry (List Byte))
        [.Register (constClient remoteA) "a" 1 echoHook,
          .Register (constClient remoteB) "b" 1 blankHook] = some regShared ∧
      regShared.schemas "a" = some entryA ∧ entryA.subject.Id = 7 ∧
      echoEngine.Marshal [1, 2] = .ok [1, 2] ∧
      Encode echoEngine entryA [1, 2] = .ok [0, 0, 0, 0, 7, 1, 2] ∧
      (Decode regShared downClient echoEngine [0, 0, 0, 0, 7, 1, 2]).out = blankHook [1, 2] ∧
      (Decode regShared downClient echoEngine [0, 0, 0, 0, 7, 1, 2]).out ≠ echoHook [1, 2]) ∧
    (regA.schemas "a" = some entryA ∧ regA.schemaIds 7 = some entryA ∧
      regA.jsonEncoders 7 = some echoHook ∧ Lossless compactEngine ∧
      compactEngine.Marshal [32, 49] = .ok [32, 49] ∧
      Encode compactEngine entryA [32, 49] = .ok [0, 0, 0, 0, 7, 49] ∧
      (Decode regA downClient compactEngine [0, 0, 0, 0, 7, 49]).out = echoHook [49] ∧
      (Decode regA downClient compactEngine [0, 0, 0, 0, 7, 49]).out ≠ echoHook [32, 49]) := by
  refine ⟨⟨rfl, rfl, rfl, rfl, echoEngine_lossless, rfl, by decide, by decide, by decide⟩,
    ⟨rfl, rfl, rfl, rfl, by decide, by decide, by decide⟩,
    ⟨rfl, rfl, rfl, compactEngine_lossless, rfl, by decide, by decide, by decide⟩⟩

/-- C2, amended: let the subject index bind `S` to an entry `e` whose schema id fits in 32
bits, the schema-id index bind that id to an entry with the schema text of `e`, and the hook
index bind that id to `h`; let the engine be lossless on values, and let `v` conform to the
schema of `e` (the schema compiles, `v` marshals to `json`, the codec reads `json` as
`native`).  Then `e` is the encoder `WithSchema(S)` returns, `Encode` succeeds on `v`, and
`Decode` of the bytes it returns gives exactly what `h` produces on the text the codec
writes for `native`, a text that the codec reads back as `native`; when that text is `json`
itself, `Decode` gives what `h` produces on `json`. -/
theorem Decode_Encode_round_trip {D N V : Type} (r : SchemaRegistry V) (client : Client)
    (engine : Engine D N) (S : String) (h : jsonEncoder V) (e e' : Encoder) (v : D)
    (codec : Codec N) (json : List Byte) (native : N) (rest : List Byte)
    (hS : r.schemas S = some e) (h0 : 0 ≤ e.subject.Id) (h1 : e.subject.Id < 2 ^ 32)
    (hIds : r.schemaIds e.subject.Id = some e')
    (hText : e'.subject.Schema = e.subject.Schema)
    (hHook : r.jsonEncoders e.subject.Id = some h) (hl : Lossless engine)
    (hNew : engine.NewCodec e.subject.Schema = .ok codec) (hM : engine.Marshal v = .ok json)
    (hT : codec.NativeFromTextual json = .ok (native, rest)) :
    (WithSchema r S).out = .ret e ∧
    ∃ bytes text rest', Encode engine e v = .ok bytes ∧
      codec.textualPayload native = .ok text ∧
      codec.NativeFromTextual text = .ok (native, rest') ∧
      (Decode r client engine bytes).out = h text ∧
      (text = json → (Decode r client engine bytes).out = h json) := by
  refine ⟨by simp only [WithSchema, hS], ?_⟩
  obtain ⟨⟨payload, rest2, hB, hNB⟩, text, rest', hTx, hRead⟩ :=
    hl _ codec hNew json native rest hT
  have hout : (Decode r client engine (encodePrefix e.subject.Id ++ payload)).out = h text := by
    have hlen : ¬ (encodePrefix e.subject.Id ++ payload).length < 5 := by
      simp [encodePrefix_length]
    have hid : decodePrefix (encodePrefix e.subject.Id ++ payload) = .ok e.subject.Id := by
      rw [decodePrefix_encodePrefix_mod, Int.emod_eq_of_lt h0 h1]
    have hdrop : (encodePrefix e.subject.Id ++ payload).drop 5 = payload := by
      simp [encodePrefix, PutUint32]
    simp only [Decode, hlen, if_false, hid, GetOrFetch, hIds, Encoder.Schema, hText, hNew,
      hdrop, hNB, Codec.TextualFromNative, hTx, List.nil_append, hHook]
  refine ⟨encodePrefix e.subject.Id ++ payload, text, rest', ?_, hTx, hRead, hout, ?_⟩
  · simp only [Encode, hNew, hM, hT, Codec.BinaryFromNative, hB]
  · intro heq
    rw [hout, heq]

theorem Decode_Encode_round_trip_witness :
    regShared.schemas "a" = some entryA ∧ (0 : Int) ≤ entryA.subject.Id ∧
    entryA.subject.Id < 2 ^ 32 ∧ regShared.schemaIds entryA.subject.Id = some entryB ∧
    entryB.subject.Schema = entryA.subject.Schema ∧
    regShared.jsonEncoders entryA.subject.Id = some blankHook ∧ Lossless compactEngine ∧
    compactEngine.NewCodec entryA.subject.Schema = .ok compactCodec ∧
    compactEngine.Marshal [32, 49] = .ok [32, 49] ∧
    compactCodec.NativeFromTextual [32, 49] = .ok ([49], []) ∧
    (WithSchema regShared "a").out = .ret entryA ∧
    ∃ bytes text rest', Encode compactEngine entryA [32, 49] = .ok bytes ∧
      compactCodec.textualPayload [49] = .ok text ∧
      compactCodec.NativeFromTextual text = .ok ([49], rest') ∧
      (Decode regShared downClient compactEngine bytes).out = blankHook text ∧
      (text = [32, 49] →
        (Decode regShared downClient compactEngine bytes).out = blankHook [32, 49]) :=
  ⟨rfl, by decide, by decide, rfl, rfl, rfl, compactEngine_lossless, rfl, rfl, by decide,
    Decode_Encode_round_trip regShared downClient compactEngine "a" blankHook entryA entryB
      [32, 49] compactCodec [32, 49] [49] [] rfl (by decide) (by decide) rfl rfl rfl
      compactEngine_lossless rfl rfl (by decide)⟩

end Registry
